import Mathlib

/-!
Shallow embedding of `generalized_additive_models/inspection/partial_effect.py`
(the module behind term-level partial-effect diagnostics of a fitted GAM).

Numbers are modelled as exact rationals.  `np.sqrt`, which the source applies
only to turn per-row variances into standard deviations, has no rational
counterpart and is therefore passed to the embedded computations as an
explicit function parameter `sqrtQ`; theorems that depend on properties of the
square root state them as hypotheses.  Term basis transforms and the fitted
model's `predict` are external collaborators of this module (they live in the
term classes and the `GAM` class respectively) and are likewise passed in as
functions.
-/

/-- A 2-D numpy array of rationals, as a list of rows. -/
abbrev Mat := List (List ℚ)

/-- Entry `A[i][j]`, with zero padding outside the array (the padding is only
read under explicit bounds in proofs). -/
def entry (A : Mat) (i j : Nat) : ℚ := (A.getD i []).getD j 0

/-- Number of columns of a rectangular array (length of the first row). -/
def numCols (A : Mat) : Nat := (A.headD []).length

/-- numpy dot product of two 1-D arrays. -/
def dotQ (u v : List ℚ) : ℚ := (List.zipWith (· * ·) u v).sum

/-- Column `j` of a matrix. -/
def colQ (A : Mat) (j : Nat) : List ℚ := A.map (fun r => r.getD j 0)

/-- numpy matrix product `A @ B`. -/
def matMul (A B : Mat) : Mat :=
  A.map (fun r => (List.range (numCols B)).map (fun j => dotQ r (colQ B j)))

/-- numpy transpose `A.T`. -/
def transposeM (A : Mat) : Mat := (List.range (numCols A)).map (fun j => colQ A j)

/-- numpy elementwise product `A * B`. -/
def hadamard (A B : Mat) : Mat := List.zipWith (List.zipWith (· * ·)) A B

/-- numpy `np.sum(A, axis=1)`. -/
def rowSums (A : Mat) : List ℚ := A.map List.sum

/-- Source line 154: `np.sum((X @ V) * X, axis=1)`, the fast per-row
quadratic-form variances of the credible-interval computation. -/
def rowVariances (X V : Mat) : List ℚ := rowSums (hadamard (matMul X V) X)

/-- numpy `np.diag(A)`. -/
def diagM (A : Mat) : List ℚ := (List.range A.length).map (fun i => entry A i i)

/-- Source line 146: `covariance[np.ix_(coef_idx_, coef_idx_)]`, the principal
sub-matrix of the covariance at the term's coefficient indices. -/
def subCov (C : Mat) (idx : List Nat) : Mat :=
  idx.map (fun i => idx.map (fun j => entry C i j))

/-- numpy matrix-vector product `A @ v`. -/
def matVec (A : Mat) (v : List ℚ) : List ℚ := A.map (fun r => dotQ r v)

/-- Elementwise sum of two equally long 1-D arrays. -/
def listAdd (a b : List ℚ) : List ℚ := List.zipWith (· + ·) a b

/-- Elementwise difference of two equally long 1-D arrays. -/
def listSub (a b : List ℚ) : List ℚ := List.zipWith (· - ·) a b

/-- `np.allclose(a, b)` with the numpy defaults `rtol = 1e-5`, `atol = 1e-8`:
`|a - b| <= atol + rtol * |b|` elementwise, on arrays of equal shape. -/
def allclose (a b : List ℚ) : Bool :=
  a.length == b.length &&
    (a.zip b).all (fun p => decide (|p.1 - p.2| ≤ 1 / 100000000 + 1 / 100000 * |p.2|))

/-- `np.min` of a 1-D array (the caller must rule out the empty array, on
which numpy raises). -/
def npMin : List ℚ → ℚ
  | [] => 0
  | x :: xs => xs.foldl min x

/-- `np.max` of a 1-D array. -/
def npMax : List ℚ → ℚ
  | [] => 0
  | x :: xs => xs.foldl max x

/-- `np.linspace(start, stop, num)` with the default `endpoint=True`:
`num` evenly spaced samples, step `(stop - start) / (num - 1)`. -/
def linspace (start stop : ℚ) (num : Nat) : List ℚ :=
  if num = 0 then []
  else if num = 1 then [start]
  else (List.range num).map (fun i : Nat => start + (i : ℚ) * (stop - start) / ((num : ℚ) - 1))

/-- Extraction of the term's single feature column from a data matrix
(`term._get_column(X, selector="feature")`). -/
def getColumn (X : Mat) (feature : Nat) : List ℚ := X.map (fun r => r.getD feature 0)

/-- Evaluation of a Python list comprehension whose body may raise: the
elements are produced left to right and the first exception aborts. -/
def exceptMap {E α β : Type} (f : α → Except E β) : List α → Except E (List β)
  | [] => .ok []
  | a :: l =>
    match f a with
    | .error e => .error e
    | .ok b =>
      match exceptMap f l with
      | .error e => .error e
      | .ok bs => .ok (b :: bs)

/-- Modelled from the spec: `cartesian` lives in
`generalized_additive_models/utils.py`, which is not part of the sources
here.  Per the spec it is the full cartesian product of the axes, row order
lexicographic over the axes with the last axis varying fastest. -/
def cartesianProd {α : Type} : List (List α) → List (List α)
  | [] => [[]]
  | a :: rest => (a.map (fun v => (cartesianProd rest).map (fun r => v :: r))).flatten

/-- An n-dimensional numpy array: its shape together with its flat data in
C (row-major) order. -/
structure NDArray where
  shape : List Nat
  data : List ℚ
  deriving DecidableEq

/-- `np.meshgrid(*axes, indexing="ij")`: one n-D array per axis; array `m`
holds, at multi-index `(i_1, ..., i_k)`, the value `axes[m][i_m]`. -/
def meshgridIJ (axes : List (List ℚ)) : List NDArray :=
  let shape := axes.map List.length
  let idxGrid := cartesianProd (axes.map (fun ax => List.range ax.length))
  (List.range axes.length).map (fun m =>
    ⟨shape, idxGrid.map (fun idx => (axes.getD m []).getD (idx.getD m 0) 0)⟩)

/-- The term variants of the library (`Intercept`, `Linear`, `Spline`,
`Categorical`, `Tensor`), plus `other`: Python's class hierarchy is open, so a
`Term` subclass outside the five dispatch cases of `generate_X_grid` can reach
it (the `isinstance` chain of the source has no final `else`). -/
inductive TermKind where
  | intercept
  | linear
  | spline
  | categorical
  | tensor
  | other (name : String)
  deriving DecidableEq

/-- A sub-term of a `Tensor` term (per the spec's data model a Tensor is a
list of Splines, i.e. of single-feature terms). -/
structure SubTerm where
  kind : TermKind
  feature : Nat
  coef : List ℚ
  fitted : Bool
  categories : List ℚ
  deriving DecidableEq

/-- The data of a fitted term: its variant, active feature index, fitted
coefficient sub-vector `coef_`, coefficient index set `coef_idx_`, fitted
category levels (Categorical), fitted flag, and sub-terms (Tensor).  The
term's basis transform is external capability owned by the term classes; the
embedded computations receive it as a function of the term's data. -/
structure Term where
  kind : TermKind
  feature : Nat
  coef : List ℚ
  coefIdx : List Nat
  categories : List ℚ
  fitted : Bool
  subterms : List SubTerm
  deriving DecidableEq

/-- The model's link: `link`, `inverse_link` and the `domain` interval, with
`none` standing for an infinite endpoint (numpy's `±inf` absorbs the epsilon
shift, so clamping against an infinite endpoint is the identity). -/
structure Link where
  link : ℚ → ℚ
  inverse_link : ℚ → ℚ
  domain : Option ℚ × Option ℚ

/-- The fitted model data consumed by the module: coefficient vector, full
coefficient covariance, training inputs/targets, model matrix, link and term
collection.  `predict` is modelled from the spec: `GAM.predict` is outside
the sources here; the spec calls it the full model prediction on `X`. -/
structure GAMModel where
  terms : List Term
  coef : List ℚ
  covariance : Mat
  X : Mat
  y : List ℚ
  model_matrix : Mat
  link : Link
  predict : Mat → List ℚ
  fitted : Bool

/-- The error conditions the module can signal (Python exceptions). -/
inductive PEError where
  | typeErrorTerm (kind : TermKind)
  | notFittedGam
  | notFittedTerm
  | termNotFound
  | invalidScalar
  | emptyColumn
  | attrError
  | assertStdevPositive
  | assertNotClose
  deriving DecidableEq

/-- Result of `generate_X_grid`: a plain grid, or (for Tensor terms) the pair
of a cartesian grid and a meshgrid. -/
inductive GridResult where
  | single (g : Mat)
  | tensor (g : Mat) (mesh : List NDArray)
  deriving DecidableEq

/-- The non-Tensor branches of `generate_X_grid`, as invoked recursively on
the sub-terms of a `Tensor` (source line 49); the trailing `.ravel()` of that
line is applied by the caller.  A sub-term of an unsupported kind makes the
recursive call return `None` (or a pair), whose `.ravel()` raises. -/
def generateXGridSub (gam : GAMModel) (s : SubTerm) (X : Mat) (extrapolation : ℚ)
    (num : Nat) : Except PEError Mat :=
  if ¬ gam.fitted then .error .notFittedGam
  else if ¬ s.fitted then .error .notFittedTerm
  else
    match s.kind with
    | .intercept => .ok [[1]]
    | .linear | .spline =>
      let col := getColumn X s.feature
      if col = [] then .error .emptyColumn
      else
        let lo := npMin col
        let hi := npMax col
        let offset := (hi - lo) * extrapolation
        .ok ((linspace (lo - offset) (hi + offset) num).map (fun v => [v]))
    | .categorical => .ok (s.categories.map (fun c => [c]))
    | .tensor => .error .attrError
    | .other _ => .error .attrError

/-- `generate_X_grid(gam, term, X, *, extrapolation, num)` (source lines
25-52).  The source's `isinstance` dispatch has no final `else`: a fitted
`Term` of a kind outside the five cases falls through and the function
returns Python `None`, modelled as `.ok none`. -/
def generateXGrid (gam : GAMModel) (term : Term) (X : Mat) (extrapolation : ℚ)
    (num : Nat) : Except PEError (Option GridResult) :=
  if ¬ gam.fitted then .error .notFittedGam
  else if ¬ term.fitted then .error .notFittedTerm
  else
    match term.kind with
    | .intercept => .ok (some (.single [[1]]))
    | .linear | .spline =>
      let col := getColumn X term.feature
      if col = [] then .error .emptyColumn
      else
        let lo := npMin col
        let hi := npMax col
        let offset := (hi - lo) * extrapolation
        .ok (some (.single ((linspace (lo - offset) (hi + offset) num).map (fun v => [v]))))
    | .categorical => .ok (some (.single (term.categories.map (fun c => [c]))))
    | .tensor =>
      match exceptMap
          (fun s => (generateXGridSub gam s X extrapolation num).map List.flatten)
          term.subterms with
      | .error e => .error e
      | .ok axes => .ok (some (.tensor (cartesianProd axes) (meshgridIJ axes)))
    | .other _ => .ok none

/-- Python value held in the `y_partial_residuals` field of the result: either
a plain 1-D array, or (as produced by the response-scale branch of
`partial_effect`, source line 179) a 1-tuple wrapping such an array. -/
inductive ResidField where
  | plain (v : List ℚ)
  | wrapped (v : List ℚ)
  deriving DecidableEq

/-- The `Bunch` returned by `partial_effect` (source lines 163-171). -/
structure Bunch where
  x : Mat
  y : List ℚ
  y_low : List ℚ
  y_high : List ℚ
  x_obs : List ℚ
  y_partial_residuals : ResidField
  meshgrid : Option (List NDArray)
  deriving DecidableEq

/-- `partial_effect(gam, term, standard_deviations, edges, linear_scale)`
(source lines 55-181).  `transform` is the term's external basis transform
(receiving the current term data, whose `feature` bookkeeping the source
updates through `set_params`); `sqrtQ` stands for `np.sqrt`.  Python
exceptions (TypeError, ValueError from `check_scalar`/`np.min`,
AssertionError) are the `.error` outcomes.  `edges` is accepted and never
read, as in the source. -/
def partialEffect (transform : Term → Mat → Mat) (sqrtQ : ℚ → ℚ) (gam : GAMModel)
    (term0 : Term) (standard_deviations : ℚ) (edges : Option ℚ)
    (linear_scale : Bool) : Except PEError Bunch :=
  -- isinstance(term, (Spline, Linear)) check, source line 106
  if term0.kind ≠ .spline ∧ term0.kind ≠ .linear then .error (.typeErrorTerm term0.kind)
  else if ¬ gam.fitted then .error .notFittedGam
  else if ¬ term0.fitted then .error .notFittedTerm
  else if term0 ∉ gam.terms then .error .termNotFound
  else if ¬ (0 < standard_deviations) then .error .invalidScalar
  else
    -- term = copy.deepcopy(term), source line 126; the working copy is a value
    let term := term0
    let data := getColumn gam.X term.feature
    let X_original_transformed := transform term gam.X
    -- the Tensor branch of lines 132-135 is unreachable: line 106 admits only
    -- Spline and Linear, so the grid below is always a plain grid
    match generateXGrid gam term gam.X (1 / 100) 100 with
    | .error e => .error e
    | .ok none => .error .attrError
    | .ok (some (.tensor _ _)) => .error .attrError
    | .ok (some (.single X_smooth)) =>
      let term := { term with feature := 0 }  -- term.set_params(feature=0), line 138
      let Xd := transform term X_smooth
      let linear_predictions := matVec Xd term.coef
      let predictions := linear_predictions
      let V := subCov gam.covariance term.coefIdx
      let stdev_array := (rowVariances Xd V).map sqrtQ
      if ¬ stdev_array.all (fun s => decide (0 < s)) then .error .assertStdevPositive
      else if ¬ allclose (stdev_array.map (fun s => s * s))
          (diagM (matMul (matMul Xd V) (transposeM Xd))) then .error .assertNotClose
      else
        let residuals :=
          listSub gam.y ((matVec gam.model_matrix gam.coef).map gam.link.inverse_link)
        let result : Bunch :=
          { x := X_smooth
            y := predictions
            y_low := listSub predictions (stdev_array.map (fun s => standard_deviations * s))
            y_high := listAdd predictions (stdev_array.map (fun s => standard_deviations * s))
            x_obs := data
            y_partial_residuals :=
              .plain (listAdd (matVec X_original_transformed term.coef) residuals)
            meshgrid := none }
        if linear_scale then .ok result
        else
          .ok { result with
                y := result.y.map gam.link.inverse_link
                y_low := result.y_low.map gam.link.inverse_link
                y_high := result.y_high.map gam.link.inverse_link
                -- source line 179: the response-scale branch rebuilds the
                -- partial residuals as inverse_link(X_orig @ coef_) + residuals
                -- and wraps them in a single-element tuple
                y_partial_residuals :=
                  .wrapped (listAdd
                    ((matVec X_original_transformed term.coef).map gam.link.inverse_link)
                    residuals) }

/-- The relabeling of the working copy's active-feature bookkeeping performed
by `partial_effect` (source lines 132-138) and `from_estimator` (292-298):
each Tensor sub-term gets its position as feature, any other term gets 0. -/
def relabelTerm (t : Term) : Term :=
  if t.kind = .tensor then
    { t with subterms := t.subterms.mapIdx (fun i s => { s with feature := i }) }
  else { t with feature := 0 }

/-- `partial_effect` with the Python object store made explicit: the caller's
term lives in a slot of `store`; `copy.deepcopy` (source line 126) allocates a
fresh slot for the working copy, and the `set_params` relabeling mutates only
that fresh slot.  Validation failures raise before the copy is made, leaving
the store untouched. -/
def partialEffectSt (transform : Term → Mat → Mat) (sqrtQ : ℚ → ℚ) (gam : GAMModel)
    (store : List Term) (i : Nat) (standard_deviations : ℚ) (edges : Option ℚ)
    (linear_scale : Bool) : List Term × Except PEError Bunch :=
  match store[i]? with
  | none => (store, .error .termNotFound)
  | some term =>
    if (term.kind ≠ .spline ∧ term.kind ≠ .linear) ∨ ¬ gam.fitted ∨ ¬ term.fitted ∨
        term ∉ gam.terms ∨ ¬ (0 < standard_deviations) then
      (store, partialEffect transform sqrtQ gam term standard_deviations edges linear_scale)
    else
      ((store ++ [term]).set store.length (relabelTerm term),
        partialEffect transform sqrtQ gam term standard_deviations edges linear_scale)

/-- The tri-state `transformation` argument of
`PartialEffectDisplay.from_estimator`: `True`, `False`, `None`, or a
caller-supplied callable. -/
inductive TransformArg where
  | isTrue
  | isFalse
  | isNone
  | custom (f : ℚ → ℚ)

/-- Resolution of the `transformation` argument (source lines 320-325). -/
def resolveTransformation (t : TransformArg) (link : Link) : ℚ → ℚ :=
  match t with
  | .isTrue => link.inverse_link
  | .isNone | .isFalse => fun x => x
  | .custom f => f

/-- `np.sqrt(np.finfo(float).eps)`: machine epsilon of a double is exactly
`2 ^ (-52)`, whose square root is exactly `2 ^ (-26)`. -/
def npSqrtEps : ℚ := 1 / 2 ^ 26

/-- Clamping of `y` away from the link's domain boundaries (source lines
331-333): `np.minimum(np.maximum(y, low + eps), high - eps)`; an infinite
endpoint absorbs the epsilon, so that side clamps nothing. -/
def clampToDomain (domain : Option ℚ × Option ℚ) (y : List ℚ) : List ℚ :=
  y.map (fun t =>
    let t1 := match domain.1 with
      | some lo => max t (lo + npSqrtEps)
      | none => t
    match domain.2 with
    | some hi => min t1 (hi - npSqrtEps)
    | none => t1)

/-- The display bundle built by `from_estimator` (source lines 338-345);
`np.squeeze` on `x` only drops the singleton axis of a one-column grid and is
not modelled (the grid is kept as a matrix). -/
structure Display where
  x : Mat
  y : List ℚ
  y_low : List ℚ
  y_high : List ℚ
  x_obs : List ℚ
  y_partial_residuals : Option (List ℚ)

/-- `PartialEffectDisplay.from_estimator` (source lines 246-347), up to the
final `viz.plot(...)` call, which only draws the returned bundle.  Unlike
`partial_effect` it accepts every `Term` kind; `edges` is accepted and never
read. -/
def fromEstimator (transform : Term → Mat → Mat) (sqrtQ : ℚ → ℚ) (gam : GAMModel)
    (term0 : Term) (X : Mat) (y : List ℚ) (standard_deviations : ℚ)
    (edges : Option ℚ) (transformation : TransformArg) (residuals : Bool) :
    Except PEError Display :=
  if ¬ gam.fitted then .error .notFittedGam
  else if ¬ term0.fitted then .error .notFittedTerm
  else if term0 ∉ gam.terms then .error .termNotFound
  else if ¬ (0 < standard_deviations) then .error .invalidScalar
  else
    let term := term0  -- copy.deepcopy(term), source line 286
    let X_transformed := transform term X
    let x_obs := getColumn X term.feature
    match generateXGrid gam term gam.X (1 / 100) (2 ^ 8) with
    | .error e => .error e
    | .ok none => .error .attrError  -- term.transform(None) raises
    | .ok (some gridRes) =>
      let X_smooth := match gridRes with
        | .single g => g
        | .tensor g _ => g
      let term := relabelTerm term  -- set_params calls, source lines 292-298
      let Xst := transform term X_smooth
      let linear_predictions := matVec Xst term.coef
      let V := subCov gam.covariance term.coefIdx
      let stdev_array := (rowVariances Xst V).map sqrtQ
      if ¬ stdev_array.all (fun s => decide (0 < s)) then .error .assertStdevPositive
      else if ¬ allclose (stdev_array.map (fun s => s * s))
          (diagM (matMul (matMul Xst V) (transposeM Xst))) then .error .assertNotClose
      else
        let trans := resolveTransformation transformation gam.link
        let y_noboundary := clampToDomain gam.link.domain y
        let res := listSub (y_noboundary.map gam.link.link) ((gam.predict X).map gam.link.link)
        let y_partial_residuals := (listAdd (matVec X_transformed term.coef) res).map trans
        .ok { x := X_smooth
              y := linear_predictions.map trans
              y_low := (listSub linear_predictions
                (stdev_array.map (fun s => standard_deviations * s))).map trans
              y_high := (listAdd linear_predictions
                (stdev_array.map (fun s => standard_deviations * s))).map trans
              x_obs := x_obs
              y_partial_residuals := if residuals then some y_partial_residuals else none }

deriving instance DecidableEq for Except

/-- Boolean strict lexicographic order on rows, earlier coordinates more
significant (so a sequence sorted by it has its last coordinate varying
fastest). -/
def lexLt : List ℚ → List ℚ → Bool
  | [], [] => false
  | [], _ :: _ => true
  | _ :: _, [] => false
  | a :: as, b :: bs => decide (a < b) || (a == b && lexLt as bs)

/-- `y_low <= y <= y_high`, row by row, for a `partial_effect` bundle. -/
def intervalsOrdered (b : Bunch) : Bool :=
  ((b.y_low.zip b.y).all fun p => decide (p.1 ≤ p.2)) &&
    ((b.y.zip b.y_high).all fun p => decide (p.1 ≤ p.2))

/-- `intervalsOrdered` on the produced bundle; an error produces no bundle. -/
def bunchOrderedE (r : Except PEError Bunch) : Bool :=
  match r with
  | .ok b => intervalsOrdered b
  | .error _ => true

/-- `y_low <= y <= y_high`, row by row, for a `from_estimator` display. -/
def displayOrdered (d : Display) : Bool :=
  ((d.y_low.zip d.y).all fun p => decide (p.1 ≤ p.2)) &&
    ((d.y.zip d.y_high).all fun p => decide (p.1 ≤ p.2))

/-- `displayOrdered` on the produced display; an error produces no display. -/
def displayOrderedE (r : Except PEError Display) : Bool :=
  match r with
  | .ok d => displayOrdered d
  | .error _ => true

/-- The response-scale partial residuals exactly as the spec words them:
`transformation(term_design(X) @ coef_ + res)` with
`res = link(y_clamped) - link(full_model_prediction_on_X)` and `y` clamped
away from the link domain boundaries by `sqrt(machine_epsilon)`.  Stated for
comparison against what `partial_effect` actually returns. -/
def claimedResponseResiduals (transform : Term → Mat → Mat) (gam : GAMModel)
    (term : Term) (X : Mat) (y : List ℚ) (trans : ℚ → ℚ) : List ℚ :=
  (listAdd (matVec (transform term X) term.coef)
    (listSub ((clampToDomain gam.link.domain y).map gam.link.link)
      ((gam.predict X).map gam.link.link))).map trans

/-- A constant (intercept-like) one-column basis: every row of the input is
mapped to the single basis value `1`.  Used as the external term transform in
the concrete instances below. -/
def constBasis : Term → Mat → Mat := fun _ X => X.map (fun _ => [1])

/-- A square-root oracle valid on the inputs the concrete instances produce
(all their per-row variances are exactly `1`). -/
def sqrtOne : ℚ → ℚ := fun _ => 1

/-- A reciprocal link (`g(mu) = 1/mu`), self-inverse and order-reversing on
positive values — the shape of the canonical Gamma link. -/
def recipLink : Link := ⟨fun t => t⁻¹, fun t => t⁻¹, (none, none)⟩

/-- Concrete fitted linear term used by the concrete instances. -/
def termLinC : Term := ⟨.linear, 0, [2], [0], [], true, []⟩

/-- Concrete fitted model over `termLinC` with reciprocal link, a 1x1
coefficient covariance equal to `1`, two training rows and a constant
external `predict`. -/
def gamC : GAMModel :=
  ⟨[termLinC], [2], [[1]], [[3], [4]], [5, 5], [[1], [1]], recipLink,
    fun _ => [0, 0], true⟩

/-- Claim C10: the `edges` parameter is accepted but never read — for any two
values of `edges` and otherwise identical inputs, `partial_effect` and
`PartialEffectDisplay.from_estimator` return identical results. -/
theorem claim10_edges_unused (transform : Term → Mat → Mat) (sqrtQ : ℚ → ℚ)
    (gam : GAMModel) (term : Term) (s : ℚ) (e1 e2 : Option ℚ) (ls : Bool)
    (X : Mat) (y : List ℚ) (targ : TransformArg) (residuals : Bool) :
    partialEffect transform sqrtQ gam term s e1 ls
      = partialEffect transform sqrtQ gam term s e2 ls ∧
    fromEstimator transform sqrtQ gam term X y s e1 targ residuals
      = fromEstimator transform sqrtQ gam term X y s e2 targ residuals :=
  ⟨rfl, rfl⟩

/-- Claim C6: both `partial_effect` and `from_estimator` reject a
`standard_deviations` that is not strictly positive with the invalid-argument
condition of `check_scalar`, during up-front validation and before any
computation; in particular `0` and `-1` are rejected. -/
theorem claim6_std_validation (transform : Term → Mat → Mat) (sqrtQ : ℚ → ℚ)
    (gam : GAMModel) (term : Term) (s : ℚ) (e : Option ℚ) (ls : Bool) (X : Mat)
    (y : List ℚ) (targ : TransformArg) (residuals : Bool)
    (hk : term.kind = .spline ∨ term.kind = .linear) (hg : gam.fitted = true)
    (ht : term.fitted = true) (hm : term ∈ gam.terms) (hs : s ≤ 0) :
    partialEffect transform sqrtQ gam term s e ls = .error .invalidScalar ∧
    fromEstimator transform sqrtQ gam term X y s e targ residuals
      = .error .invalidScalar := by
  have h1 : ¬ (term.kind ≠ .spline ∧ term.kind ≠ .linear) := by
    rcases hk with h | h <;> simp [h]
  have h5 : ¬ (0 < s) := not_lt.mpr hs
  constructor
  · simp only [partialEffect]
    rw [if_neg h1, if_neg (by simp [hg]), if_neg (by simp [ht]),
      if_neg (not_not_intro hm), if_pos h5]
  · simp only [fromEstimator]
    rw [if_neg (by simp [hg]), if_neg (by simp [ht]),
      if_neg (not_not_intro hm), if_pos h5]

/-- Witness for C6: the concrete model rejects both `standard_deviations = 0`
and `standard_deviations = -1` in both entry points. -/
theorem claim6_witness :
    (partialEffect constBasis sqrtOne gamC termLinC 0 none true
        = .error .invalidScalar ∧
      fromEstimator constBasis sqrtOne gamC termLinC gamC.X gamC.y 0 none
        .isNone false = .error .invalidScalar) ∧
    (partialEffect constBasis sqrtOne gamC termLinC (-1) none true
        = .error .invalidScalar ∧
      fromEstimator constBasis sqrtOne gamC termLinC gamC.X gamC.y (-1) none
        .isNone false = .error .invalidScalar) :=
  ⟨claim6_std_validation constBasis sqrtOne gamC termLinC 0 none true gamC.X
      gamC.y .isNone false (by decide) (by decide) (by decide) (by decide)
      (by decide),
    claim6_std_validation constBasis sqrtOne gamC termLinC (-1) none true gamC.X
      gamC.y .isNone false (by decide) (by decide) (by decide) (by decide)
      (by decide)⟩

/-- A fitted term of a kind outside the five dispatch cases (a custom `Term`
subclass). -/
def termOtherC : Term := ⟨.other "PolynomialTerm", 0, [1], [0], [], true, []⟩

/-- Counterexample for C5: `generate_X_grid`, given a fitted term of an
unsupported kind, does not signal an invalid-argument condition — it falls
off the `isinstance` chain and returns Python `None` (a normal return). -/
theorem claim5_counterexample :
    generateXGrid gamC termOtherC gamC.X (1 / 100) 100 = .ok none ∧
    (generateXGrid gamC termOtherC gamC.X (1 / 100) 100).isOk = true :=
  ⟨by decide, by decide⟩

/-- Claim C5 as amended: a fitted term whose kind is none of the supported
variants makes `generate_X_grid` fall through the `isinstance` chain and
return `None` (no grid, no signalled condition); only a non-`Term` argument
triggers the up-front type error. -/
theorem claim5_amended (gam : GAMModel) (term : Term) (X : Mat) (e : ℚ)
    (num : Nat) (name : String) (hg : gam.fitted = true) (ht : term.fitted = true)
    (hk : term.kind = .other name) :
    generateXGrid gam term X e num = .ok none := by
  simp only [generateXGrid]
  rw [if_neg (by simp [hg]), if_neg (by simp [ht]), hk]

/-- Witness for the amended C5 at a concrete unsupported fitted term. -/
theorem claim5_witness :
    generateXGrid gamC ⟨.other "CustomSmooth", 1, [], [], [], true, []⟩ gamC.X 1 3
      = .ok none :=
  claim5_amended gamC ⟨.other "CustomSmooth", 1, [], [], [], true, []⟩ gamC.X 1 3
    "CustomSmooth" (by decide) (by decide) (by decide)

/-- A concrete fitted categorical term (member-ready, but `partial_effect`
rejects it on type before membership is consulted). -/
def termCatC : Term := ⟨.categorical, 0, [1], [1], [10, 20], true, []⟩

/-- A concrete fitted tensor term with two spline sub-terms. -/
def termTenC : Term :=
  ⟨.tensor, 0, [1], [1], [], true,
    [⟨.spline, 0, [1], true, []⟩, ⟨.spline, 1, [1], true, []⟩]⟩

/-- Counterexample for C4: `partial_effect` rejects a fitted Categorical term
and a fitted Tensor term with a type error instead of producing the result
bundle. -/
theorem claim4_counterexample :
    partialEffect constBasis sqrtOne gamC termCatC 1 none true
      = .error (.typeErrorTerm .categorical) ∧
    partialEffect constBasis sqrtOne gamC termTenC 1 none true
      = .error (.typeErrorTerm .tensor) :=
  ⟨by decide, by decide⟩

/-- Claim C4 as amended: `partial_effect` rejects Categorical and Tensor
terms up front with a type error naming the term's kind; only Spline and
Linear terms pass the type check, and for a fitted member Spline/Linear term
with valid `standard_deviations` whose internal variance assertions hold, the
computation produces the result bundle. -/
theorem claim4_amended :
    (∀ (transform : Term → Mat → Mat) (sqrtQ : ℚ → ℚ) (gam : GAMModel)
        (term : Term) (s : ℚ) (e : Option ℚ) (ls : Bool),
      term.kind = .categorical ∨ term.kind = .tensor →
      partialEffect transform sqrtQ gam term s e ls
        = .error (.typeErrorTerm term.kind)) ∧
    (∀ (transform : Term → Mat → Mat) (sqrtQ : ℚ → ℚ) (gam : GAMModel)
        (term : Term) (s : ℚ) (e : Option ℚ) (ls : Bool) (g : Mat),
      term.kind = .spline ∨ term.kind = .linear → gam.fitted = true →
      term.fitted = true → term ∈ gam.terms → 0 < s →
      generateXGrid gam term gam.X (1 / 100) 100 = .ok (some (.single g)) →
      ((rowVariances (transform { term with feature := 0 } g)
          (subCov gam.covariance term.coefIdx)).map sqrtQ).all
        (fun x => decide (0 < x)) = true →
      allclose ((((rowVariances (transform { term with feature := 0 } g)
            (subCov gam.covariance term.coefIdx)).map sqrtQ).map
          (fun x => x * x)))
          (diagM (matMul (matMul (transform { term with feature := 0 } g)
            (subCov gam.covariance term.coefIdx))
            (transposeM (transform { term with feature := 0 } g)))) = true →
      ∃ b, partialEffect transform sqrtQ gam term s e ls = .ok b) := by
  constructor
  · intro transform sqrtQ gam term s e ls h
    rcases h with h | h <;> simp [partialEffect, h]
  · intro transform sqrtQ gam term s e ls g hk hg ht hm hs hgrid hpos hclose
    have h1 : ¬ (term.kind ≠ .spline ∧ term.kind ≠ .linear) := by
      rcases hk with h | h <;> simp [h]
    simp only [partialEffect]
    rw [if_neg h1, if_neg (by simp [hg]), if_neg (by simp [ht]),
      if_neg (not_not_intro hm), if_neg (not_not_intro hs), hgrid]
    simp only
    rw [if_neg (not_not_intro hpos), if_neg (not_not_intro hclose)]
    cases ls
    · exact ⟨_, rfl⟩
    · exact ⟨_, rfl⟩

/-- The 100-point grid `partial_effect` builds for `termLinC` over `gamC`
(feature column `[3, 4]`, extrapolation `0.01`). -/
def gridC : Mat := (linspace (299 / 100) (401 / 100) 100).map (fun v => [v])

set_option maxRecDepth 400000 in
unseal Rat.add Rat.mul Rat.sub Rat.inv in
/-- Witness for the amended C4: the concrete Categorical term is type-rejected
and the concrete fitted Linear term produces a bundle. -/
theorem claim4_witness :
    partialEffect constBasis sqrtOne gamC termCatC 2 none false
      = .error (.typeErrorTerm .categorical) ∧
    ∃ b, partialEffect constBasis sqrtOne gamC termLinC 1 none true = .ok b :=
  ⟨claim4_amended.1 constBasis sqrtOne gamC termCatC 2 none false (Or.inl rfl),
    claim4_amended.2 constBasis sqrtOne gamC termLinC 1 none true gridC
      (Or.inr rfl) (by decide) (by decide) (by decide) (by decide) (by decide)
      (by decide) (by decide)⟩

/-- The result component of the stateful wrapper depends only on the term
found in the addressed slot. -/
theorem pe_st_snd (transform : Term → Mat → Mat) (sqrtQ : ℚ → ℚ) (gam : GAMModel)
    (store : List Term) (i : Nat) (s : ℚ) (e : Option ℚ) (ls : Bool) :
    (partialEffectSt transform sqrtQ gam store i s e ls).2 =
      match store[i]? with
      | none => .error .termNotFound
      | some term => partialEffect transform sqrtQ gam term s e ls := by
  unfold partialEffectSt
  split
  · rfl
  · split <;> rfl

/-- The slot holding the caller's term is untouched by the stateful wrapper:
the deep copy gets a fresh slot and only that slot is relabeled. -/
theorem pe_st_fst_get (transform : Term → Mat → Mat) (sqrtQ : ℚ → ℚ)
    (gam : GAMModel) (store : List Term) (i : Nat) (s : ℚ) (e : Option ℚ)
    (ls : Bool) (hi : i < store.length) :
    ((partialEffectSt transform sqrtQ gam store i s e ls).1)[i]? = store[i]? := by
  unfold partialEffectSt
  split
  · rfl
  · split
    · rfl
    · rw [List.getElem?_set, if_neg (by omega), List.getElem?_append, if_pos hi]

/-- Claim C9: the computation never mutates the caller's term object — all
active-feature relabeling happens on the private deep copy in its fresh slot —
and consequently running it twice with identical inputs yields identical
results. -/
theorem claim9_no_mutation (transform : Term → Mat → Mat) (sqrtQ : ℚ → ℚ)
    (gam : GAMModel) (store : List Term) (i : Nat) (s : ℚ) (e : Option ℚ)
    (ls : Bool) (hi : i < store.length) :
    ((partialEffectSt transform sqrtQ gam store i s e ls).1)[i]? = store[i]? ∧
    (partialEffectSt transform sqrtQ gam
        ((partialEffectSt transform sqrtQ gam store i s e ls).1) i s e ls).2
      = (partialEffectSt transform sqrtQ gam store i s e ls).2 :=
  ⟨pe_st_fst_get transform sqrtQ gam store i s e ls hi, by
    rw [pe_st_snd, pe_st_snd, pe_st_fst_get transform sqrtQ gam store i s e ls hi]⟩

/-- Witness for C9 on a concrete two-slot store. -/
theorem claim9_witness :
    ((partialEffectSt constBasis sqrtOne gamC [termLinC, termCatC] 0 1 none
        true).1)[0]? = [termLinC, termCatC][0]? ∧
    (partialEffectSt constBasis sqrtOne gamC
        ((partialEffectSt constBasis sqrtOne gamC [termLinC, termCatC] 0 1 none
          true).1) 0 1 none true).2
      = (partialEffectSt constBasis sqrtOne gamC [termLinC, termCatC] 0 1 none
          true).2 :=
  claim9_no_mutation constBasis sqrtOne gamC [termLinC, termCatC] 0 1 none true
    (by decide)

set_option maxRecDepth 400000 in
unseal Rat.add Rat.mul Rat.sub Rat.inv in
/-- Claim C2 (code bug): on a concrete model with reciprocal link,
`partial_effect` in response-scale mode returns its partial residuals wrapped
in a single-element tuple and computed as
`inverse_link(X_transformed @ coef_) + residuals` — not the plain array
`transformation(term_design(X) @ coef_ + (link(y_clamped) - link(predict(X))))`
that the claim states (the two also differ in value here: `[5, 5]` against
`[5/11, 5/11]`). -/
theorem claim2_response_residuals_bug :
    (partialEffect constBasis sqrtOne gamC termLinC 1 none false).map
        (fun b => b.y_partial_residuals) = .ok (.wrapped [5, 5]) ∧
    claimedResponseResiduals constBasis gamC termLinC gamC.X gamC.y
        gamC.link.inverse_link = [5 / 11, 5 / 11] ∧
    ResidField.wrapped [5, 5]
      ≠ ResidField.plain (claimedResponseResiduals constBasis gamC termLinC
          gamC.X gamC.y gamC.link.inverse_link) :=
  ⟨by decide, by decide, by decide⟩

/-- Subtracting a nonnegative array entrywise can only decrease entries. -/
theorem all_zip_sub_le (p q : List ℚ) (h : ∀ x ∈ q, 0 ≤ x) :
    ((List.zipWith (· - ·) p q).zip p).all (fun r => decide (r.1 ≤ r.2)) = true := by
  induction p generalizing q with
  | nil => rfl
  | cons a p ih =>
    cases q with
    | nil => rfl
    | cons b q =>
      simp only [List.zipWith_cons_cons, List.zip_cons_cons, List.all_cons,
        Bool.and_eq_true, decide_eq_true_eq]
      exact ⟨sub_le_self a (h b (List.mem_cons_self b q)),
        ih q (fun x hx => h x (List.mem_cons_of_mem b hx))⟩

/-- Adding a nonnegative array entrywise can only increase entries. -/
theorem all_zip_le_add (p q : List ℚ) (h : ∀ x ∈ q, 0 ≤ x) :
    (p.zip (List.zipWith (· + ·) p q)).all (fun r => decide (r.1 ≤ r.2)) = true := by
  induction p generalizing q with
  | nil => rfl
  | cons a p ih =>
    cases q with
    | nil => rfl
    | cons b q =>
      simp only [List.zipWith_cons_cons, List.zip_cons_cons, List.all_cons,
        Bool.and_eq_true, decide_eq_true_eq]
      exact ⟨le_add_of_nonneg_right (h b (List.mem_cons_self b q)),
        ih q (fun x hx => h x (List.mem_cons_of_mem b hx))⟩

/-- `all_zip_sub_le` through a monotone map. -/
theorem all_zip_map_sub_le (f : ℚ → ℚ) (hf : Monotone f) (p q : List ℚ)
    (h : ∀ x ∈ q, 0 ≤ x) :
    (((List.zipWith (· - ·) p q).map f).zip (p.map f)).all
      (fun r => decide (r.1 ≤ r.2)) = true := by
  induction p generalizing q with
  | nil => rfl
  | cons a p ih =>
    cases q with
    | nil => rfl
    | cons b q =>
      simp only [List.zipWith_cons_cons, List.map_cons, List.zip_cons_cons,
        List.all_cons, Bool.and_eq_true, decide_eq_true_eq]
      exact ⟨hf (sub_le_self a (h b (List.mem_cons_self b q))),
        ih q (fun x hx => h x (List.mem_cons_of_mem b hx))⟩

/-- `all_zip_le_add` through a monotone map. -/
theorem all_zip_map_le_add (f : ℚ → ℚ) (hf : Monotone f) (p q : List ℚ)
    (h : ∀ x ∈ q, 0 ≤ x) :
    ((p.map f).zip ((List.zipWith (· + ·) p q).map f)).all
      (fun r => decide (r.1 ≤ r.2)) = true := by
  induction p generalizing q with
  | nil => rfl
  | cons a p ih =>
    cases q with
    | nil => rfl
    | cons b q =>
      simp only [List.zipWith_cons_cons, List.map_cons, List.zip_cons_cons,
        List.all_cons, Bool.and_eq_true, decide_eq_true_eq]
      exact ⟨hf (le_add_of_nonneg_right (h b (List.mem_cons_self b q))),
        ih q (fun x hx => h x (List.mem_cons_of_mem b hx))⟩


/-- Claim C8 as amended: on the linear scale (`linear_scale=True`, identity
mapping) every bundle `partial_effect` produces satisfies
`y_low <= y <= y_high` row by row; `from_estimator` satisfies it whenever the
mapping applied to the bounds is monotone nondecreasing.  (A decreasing
transformation — e.g. a reciprocal inverse link on positive values — reverses
the bounds, which is what the counterexample exhibits.) -/
theorem claim8_amended :
    (∀ (transform : Term → Mat → Mat) (sqrtQ : ℚ → ℚ) (gam : GAMModel)
        (term : Term) (s : ℚ) (e : Option ℚ), 0 < s →
      bunchOrderedE (partialEffect transform sqrtQ gam term s e true) = true) ∧
    (∀ (transform : Term → Mat → Mat) (sqrtQ : ℚ → ℚ) (gam : GAMModel)
        (term : Term) (X : Mat) (y : List ℚ) (s : ℚ) (e : Option ℚ)
        (targ : TransformArg) (residuals : Bool), 0 < s →
      Monotone (resolveTransformation targ gam.link) →
      displayOrderedE
        (fromEstimator transform sqrtQ gam term X y s e targ residuals) = true) := by
  constructor
  · intro transform sqrtQ gam term s e hs
    simp only [partialEffect]
    split
    · rfl
    split
    · rfl
    split
    · rfl
    split
    · rfl
    split
    · rfl
    · rfl
    · rfl
    next X_smooth heq =>
      split
      · rfl
      next hpos =>
        split
        · rfl
        next hclose =>
          rw [not_not] at hpos
          have hq : ∀ x ∈ (List.map sqrtQ
              (rowVariances (transform { term with feature := 0 } X_smooth)
                (subCov gam.covariance term.coefIdx))).map (fun t => s * t),
              0 ≤ x := by
            intro x hx
            obtain ⟨t, ht, rfl⟩ := List.mem_map.1 hx
            have h0 := List.all_eq_true.1 hpos t ht
            rw [decide_eq_true_eq] at h0
            exact mul_nonneg hs.le h0.le
          simp only [bunchOrderedE, intervalsOrdered, if_pos trivial, listSub,
            listAdd, Bool.and_eq_true, List.map_map]
          constructor
          · exact all_zip_sub_le _ _ (by simpa [List.map_map] using hq)
          · exact all_zip_le_add _ _ (by simpa [List.map_map] using hq)
  · intro transform sqrtQ gam term X y s e targ residuals hs hf
    simp only [fromEstimator]
    split
    · rfl
    split
    · rfl
    split
    · rfl
    split
    · rfl
    · rfl
    next gridRes heq =>
      split
      · rfl
      next hpos =>
        split
        · rfl
        next hclose =>
          rw [not_not] at hpos
          have hq : ∀ x ∈ (List.map sqrtQ
              (rowVariances (transform (relabelTerm term)
                (match gridRes with
                  | .single g => g
                  | .tensor g _ => g))
                (subCov gam.covariance (relabelTerm term).coefIdx))).map
              (fun t => s * t),
              0 ≤ x := by
            intro x hx
            obtain ⟨t, ht, rfl⟩ := List.mem_map.1 hx
            have h0 := List.all_eq_true.1 hpos t ht
            rw [decide_eq_true_eq] at h0
            exact mul_nonneg hs.le h0.le
          simp only [displayOrderedE, displayOrdered, listSub, listAdd,
            Bool.and_eq_true, List.map_map]
          constructor
          · exact all_zip_map_sub_le _ hf _ _ (by simpa [List.map_map] using hq)
          · exact all_zip_map_le_add _ hf _ _ (by simpa [List.map_map] using hq)

set_option maxRecDepth 400000 in
unseal Rat.add Rat.mul Rat.sub Rat.inv in
/-- Counterexample for C8: with the (decreasing) reciprocal inverse link and
`linear_scale=False`, the bundle produced by `partial_effect` violates
`y_low <= y <= y_high` (here `y_low = 1 > y = 1/2 > y_high = 1/3` on every
row). -/
theorem claim8_counterexample :
    bunchOrderedE (partialEffect constBasis sqrtOne gamC termLinC 1 none false)
      = false := by decide

/-- Witness for the amended C8 at a concrete model, on the linear scale and
with the identity transformation. -/
theorem claim8_witness :
    bunchOrderedE (partialEffect constBasis sqrtOne gamC termLinC 1 none true)
      = true ∧
    displayOrderedE (fromEstimator constBasis sqrtOne gamC termLinC gamC.X
      gamC.y 1 none .isNone false) = true :=
  ⟨claim8_amended.1 constBasis sqrtOne gamC termLinC 1 none (by decide),
    claim8_amended.2 constBasis sqrtOne gamC termLinC gamC.X gamC.y 1 none
      .isNone false (by decide) (fun _ _ h => h)⟩

/-- `getD` through `map`, inside the bounds. -/
theorem getD_map_lt {α β : Type} (f : α → β) (l : List α) (i : Nat)
    (h : i < l.length) (d : β) (d1 : α) : (l.map f).getD i d = f (l.getD i d1) := by
  rw [List.getD_eq_getElem?_getD, List.getElem?_map, List.getElem?_eq_getElem h,
    List.getD_eq_getElem?_getD, List.getElem?_eq_getElem h]
  rfl

/-- `getD` through `zipWith`, inside the bounds. -/
theorem getD_zipWith_lt {α β γ : Type} (f : α → β → γ) (as : List α)
    (bs : List β) (i : Nat) (ha : i < as.length) (hb : i < bs.length) (d : γ)
    (d1 : α) (d2 : β) :
    (List.zipWith f as bs).getD i d = f (as.getD i d1) (bs.getD i d2) := by
  rw [List.getD_eq_getElem?_getD, List.getElem?_zipWith,
    List.getElem?_eq_getElem ha, List.getElem?_eq_getElem hb,
    List.getD_eq_getElem?_getD, List.getElem?_eq_getElem ha,
    List.getD_eq_getElem?_getD, List.getElem?_eq_getElem hb]
  rfl

/-- `getD` on `range`, inside the bounds. -/
theorem getD_range_lt (n i : Nat) (h : i < n) (d : Nat) :
    (List.range n).getD i d = i := by
  rw [List.getD_eq_getElem?_getD, List.getElem?_range h]
  rfl

/-- A list is the range-indexed map of its own `getD`. -/
theorem eq_map_range_getD (l : List ℚ) :
    (List.range l.length).map (fun j => l.getD j 0) = l := by
  induction l with
  | nil => rfl
  | cons x xs ih =>
    rw [List.length_cons, List.range_succ_eq_map, List.map_cons, List.map_map]
    simp only [List.getD_cons_zero, Function.comp_def, List.getD_cons_succ]
    rw [ih]

/-- Core of C1: the fast per-row quadratic-form variance (row-wise sum of
`(X @ V) * X`) at any row equals the matching diagonal entry of the explicit
product `X @ V @ X.T`, for `V` the principal covariance sub-matrix. -/
theorem rowVariances_getD_eq_diag (X C : Mat) (idx : List Nat) (i : Nat)
    (hrect : ∀ r ∈ X, r.length = idx.length) (hidx : idx ≠ [])
    (hi : i < X.length) :
    (rowVariances X (subCov C idx)).getD i 0
      = (diagM (matMul (matMul X (subCov C idx)) (transposeM X))).getD i 0 := by
  set V := subCov C idx with hV
  set A := matMul X V with hA
  have hx0 : X ≠ [] := by
    intro h
    rw [h] at hi
    simp at hi
  have hidxpos : 0 < idx.length := List.length_pos.2 hidx
  have hcols : numCols X = idx.length := by
    unfold numCols
    cases X with
    | nil => exact absurd rfl hx0
    | cons r rs => exact hrect r (List.mem_cons_self r rs)
  have hxmem : X.getD i [] ∈ X := by
    rw [List.getD_eq_getElem?_getD, List.getElem?_eq_getElem hi]
    exact List.getElem_mem hi
  have hxilen : (X.getD i []).length = idx.length := hrect _ hxmem
  have hAlen : A.length = X.length := by rw [hA]; unfold matMul; rw [List.length_map]
  have hMlen : (matMul A (transposeM X)).length = X.length := by
    unfold matMul
    rw [List.length_map, hAlen]
  have hnT : numCols (transposeM X) = X.length := by
    unfold numCols transposeM
    cases hnc : numCols X with
    | zero => omega
    | succ n =>
      rw [List.range_succ_eq_map, List.map_cons]
      simp only [List.headD_cons]
      unfold colQ
      rw [List.length_map]
  have hcol : colQ (transposeM X) i = X.getD i [] := by
    unfold colQ transposeM
    rw [List.map_map]
    rw [List.map_congr_left (g := fun j => (X.getD i []).getD j 0)
      (fun j _ => by
        simp only [Function.comp_def]
        exact getD_map_lt (fun r => r.getD j 0) X i hi 0 [])]
    rw [hcols, ← hxilen, eq_map_range_getD]
  have hLHS : (rowVariances X V).getD i 0 = dotQ (A.getD i []) (X.getD i []) := by
    unfold rowVariances rowSums hadamard
    rw [getD_map_lt List.sum _ i (by rw [List.length_zipWith, hAlen]; omega) 0 []]
    rw [getD_zipWith_lt _ A X i (by omega) hi [] [] []]
    rfl
  have hRHS : (diagM (matMul A (transposeM X))).getD i 0
      = dotQ (A.getD i []) (X.getD i []) := by
    unfold diagM
    rw [getD_map_lt _ (List.range (matMul A (transposeM X)).length) i
      (by rw [List.length_range, hMlen]; exact hi) 0 0]
    rw [getD_range_lt _ i (by rw [hMlen]; exact hi) 0]
    unfold entry
    conv_lhs => rw [show matMul A (transposeM X)
      = A.map (fun r => (List.range (numCols (transposeM X))).map
          (fun j => dotQ r (colQ (transposeM X) j))) from rfl]
    rw [getD_map_lt _ A i (by omega) [] []]
    rw [getD_map_lt _ (List.range (numCols (transposeM X))) i
      (by rw [List.length_range, hnT]; exact hi) 0 0]
    rw [getD_range_lt _ i (by rw [hnT]; exact hi) 0]
    rw [hcol]
  rw [hLHS, hRHS]

/-- Claim C1: for every design matrix and principal sub-covariance
`V = covariance[idx, idx]`, the fast per-row variance — the row-wise sum of
`(X @ V) * X` — equals the diagonal of the explicit `X @ V @ X.T` at every
row; in particular the two agree within relative tolerance `1e-8`. -/
theorem claim1_fast_variance_eq_diag (X C : Mat) (idx : List Nat) (i : Nat)
    (hrect : ∀ r ∈ X, r.length = idx.length) (hidx : idx ≠ [])
    (hi : i < X.length) :
    (rowVariances X (subCov C idx)).getD i 0
      = (diagM (matMul (matMul X (subCov C idx)) (transposeM X))).getD i 0 ∧
    |(rowVariances X (subCov C idx)).getD i 0
        - (diagM (matMul (matMul X (subCov C idx)) (transposeM X))).getD i 0|
      ≤ 1 / 100000000
        * |(diagM (matMul (matMul X (subCov C idx)) (transposeM X))).getD i 0| :=
  have h := rowVariances_getD_eq_diag X C idx i hrect hidx hi
  ⟨h, by
    rw [h, sub_self, abs_zero]
    exact mul_nonneg (by norm_num) (abs_nonneg _)⟩

unseal Rat.add Rat.mul Rat.sub Rat.inv in
/-- Witness for C1 on a concrete 2x2 design with a 3x3 covariance restricted
to indices `[0, 2]`: both computations give `137` at row `1`. -/
theorem claim1_witness :
    ((rowVariances [[1, 2], [3, 4]] (subCov [[1, 0, 2], [0, 3, 0], [2, 0, 5]]
        [0, 2])).getD 1 0
      = (diagM (matMul (matMul [[1, 2], [3, 4]] (subCov
          [[1, 0, 2], [0, 3, 0], [2, 0, 5]] [0, 2]))
          (transposeM [[1, 2], [3, 4]]))).getD 1 0 ∧
     |(rowVariances [[1, 2], [3, 4]] (subCov [[1, 0, 2], [0, 3, 0], [2, 0, 5]]
         [0, 2])).getD 1 0
        - (diagM (matMul (matMul [[1, 2], [3, 4]] (subCov
            [[1, 0, 2], [0, 3, 0], [2, 0, 5]] [0, 2]))
            (transposeM [[1, 2], [3, 4]]))).getD 1 0|
      ≤ 1 / 100000000
        * |(diagM (matMul (matMul [[1, 2], [3, 4]] (subCov
            [[1, 0, 2], [0, 3, 0], [2, 0, 5]] [0, 2]))
            (transposeM [[1, 2], [3, 4]]))).getD 1 0|) ∧
    (rowVariances [[1, 2], [3, 4]] (subCov [[1, 0, 2], [0, 3, 0], [2, 0, 5]]
        [0, 2])).getD 1 0 = 137 :=
  ⟨claim1_fast_variance_eq_diag [[1, 2], [3, 4]]
      [[1, 0, 2], [0, 3, 0], [2, 0, 5]] [0, 2] 1 (by decide) (by decide)
      (by decide),
    by decide⟩

/-- Folding `min` can only decrease the accumulator. -/
theorem foldl_min_le (xs : List ℚ) (x : ℚ) : xs.foldl min x ≤ x := by
  induction xs generalizing x with
  | nil => exact le_refl x
  | cons a xs ih => exact le_trans (ih (min x a)) (min_le_left x a)

/-- Folding `max` can only increase the accumulator. -/
theorem le_foldl_max (xs : List ℚ) (x : ℚ) : x ≤ xs.foldl max x := by
  induction xs generalizing x with
  | nil => exact le_refl x
  | cons a xs ih => exact le_trans (le_max_left x a) (ih (max x a))

/-- On a nonempty array, `np.min` is at most `np.max`. -/
theorem npMin_le_npMax (l : List ℚ) (h : l ≠ []) : npMin l ≤ npMax l := by
  cases l with
  | nil => exact absurd rfl h
  | cons x xs => exact le_trans (foldl_min_le xs x) (le_foldl_max xs x)

/-- `np.linspace` returns exactly `num` samples. -/
theorem linspace_length (a b : ℚ) (n : Nat) : (linspace a b n).length = n := by
  unfold linspace
  split
  · next h => rw [h]; rfl
  split
  · next h => rw [h]; rfl
  · rw [List.length_map, List.length_range]

/-- The `i`-th `np.linspace` sample, for `num >= 2`. -/
theorem linspace_getD (a b : ℚ) (n i : Nat) (h2 : 2 ≤ n) (hi : i < n) :
    (linspace a b n).getD i 0 = a + i * (b - a) / ((n : ℚ) - 1) := by
  unfold linspace
  rw [if_neg (by omega), if_neg (by omega),
    getD_map_lt _ (List.range n) i (by rw [List.length_range]; exact hi) 0 0,
    getD_range_lt _ _ hi 0]

/-- Every `np.linspace` sample lies between the endpoints when `a <= b`. -/
theorem linspace_sample_bounds (a b : ℚ) (n i : Nat) (hab : a ≤ b) (h2 : 2 ≤ n)
    (hi : i < n) :
    a ≤ a + i * (b - a) / ((n : ℚ) - 1) ∧ a + i * (b - a) / ((n : ℚ) - 1) ≤ b := by
  have hn1 : (0 : ℚ) < (n : ℚ) - 1 := by
    have h : (2 : ℚ) ≤ (n : ℚ) := by exact_mod_cast h2
    linarith
  have hin : (i : ℚ) ≤ (n : ℚ) - 1 := by
    have h : (i : ℚ) + 1 ≤ (n : ℚ) := by exact_mod_cast Nat.succ_le_of_lt hi
    linarith
  constructor
  · have h0 : 0 ≤ (i : ℚ) * (b - a) / ((n : ℚ) - 1) :=
      div_nonneg (mul_nonneg (Nat.cast_nonneg i) (by linarith)) hn1.le
    linarith
  · have hstep : (i : ℚ) * (b - a) / ((n : ℚ) - 1)
        ≤ ((n : ℚ) - 1) * (b - a) / ((n : ℚ) - 1) := by
      apply div_le_div_of_nonneg_right ?_ hn1.le
      exact mul_le_mul_of_nonneg_right hin (by linarith)
    have heq : ((n : ℚ) - 1) * (b - a) / ((n : ℚ) - 1) = b - a := by
      field_simp
    linarith

/-- `min - offset`, the left end of the extrapolated grid interval of
`generate_X_grid` for a Linear/Spline term (source lines 41-43). -/
def gridLow (X : Mat) (f : Nat) (e : ℚ) : ℚ :=
  npMin (getColumn X f) - (npMax (getColumn X f) - npMin (getColumn X f)) * e

/-- `max + offset`, the right end of the extrapolated grid interval. -/
def gridHigh (X : Mat) (f : Nat) (e : ℚ) : ℚ :=
  npMax (getColumn X f) + (npMax (getColumn X f) - npMin (getColumn X f)) * e

/-- Claim C3: for a fitted Linear or Spline term, a nonempty feature column,
`extrapolation >= 0` and `num >= 1`, `generate_X_grid` returns exactly `num`
evenly spaced one-element rows over `[min - offset, max + offset]` with
`offset = (max - min) * extrapolation`: the first value is the left end,
every value lies in the interval, and consecutive values differ by the
constant step `(high - low) / (num - 1)`. -/
theorem claim3_linear_spline_grid (gam : GAMModel) (term : Term) (X : Mat)
    (e : ℚ) (num : Nat) (hk : term.kind = .linear ∨ term.kind = .spline)
    (hg : gam.fitted = true) (ht : term.fitted = true)
    (hcol : getColumn X term.feature ≠ []) (hnum : 1 ≤ num) (he : 0 ≤ e) :
    ∃ g, generateXGrid gam term X e num = .ok (some (.single g)) ∧
      g.length = num ∧
      g.getD 0 [] = [gridLow X term.feature e] ∧
      (∀ i, i < num → ∃ v, g.getD i [] = [v] ∧
        gridLow X term.feature e ≤ v ∧ v ≤ gridHigh X term.feature e) ∧
      (∀ i, i + 1 < num → ∃ u v, g.getD i [] = [u] ∧ g.getD (i + 1) [] = [v] ∧
        v - u = (gridHigh X term.feature e - gridLow X term.feature e)
          / ((num : ℚ) - 1)) := by
  set a := gridLow X term.feature e with ha
  set b := gridHigh X term.feature e with hb
  have hmm : npMin (getColumn X term.feature) ≤ npMax (getColumn X term.feature) :=
    npMin_le_npMax _ hcol
  have hab : a ≤ b := by
    rw [ha, hb]
    unfold gridLow gridHigh
    nlinarith [mul_nonneg (sub_nonneg.2 hmm) he]
  refine ⟨(linspace a b num).map (fun v => [v]), ?_, ?_, ?_, ?_, ?_⟩
  · simp only [generateXGrid]
    rw [if_neg (by simp [hg]), if_neg (by simp [ht])]
    rcases hk with h | h <;> rw [h] <;> rw [if_neg hcol] <;> rfl
  · rw [List.length_map, linspace_length]
  · rw [getD_map_lt _ (linspace a b num) 0 (by rw [linspace_length]; omega) [] 0]
    rcases Nat.lt_or_ge num 2 with h2 | h2
    · have h1 : num = 1 := by omega
      subst h1
      rfl
    · rw [linspace_getD a b num 0 h2 (by omega)]
      norm_num
  · intro i hi
    refine ⟨(linspace a b num).getD i 0,
      getD_map_lt _ (linspace a b num) i (by rw [linspace_length]; exact hi) [] 0,
      ?_⟩
    rcases Nat.lt_or_ge num 2 with h2 | h2
    · have h1 : num = 1 := by omega
      subst h1
      have h0 : i = 0 := by omega
      subst h0
      exact ⟨le_refl a, hab⟩
    · rw [linspace_getD a b num i h2 hi]
      exact linspace_sample_bounds a b num i hab h2 hi
  · intro i hi
    have h2 : 2 ≤ num := by omega
    refine ⟨(linspace a b num).getD i 0, (linspace a b num).getD (i + 1) 0,
      getD_map_lt _ (linspace a b num) i (by rw [linspace_length]; omega) [] 0,
      getD_map_lt _ (linspace a b num) (i + 1)
        (by rw [linspace_length]; omega) [] 0, ?_⟩
    rw [linspace_getD a b num i h2 (by omega),
      linspace_getD a b num (i + 1) h2 hi]
    push_cast
    ring

/-- A fitted linear term over feature `0` for the C3 scenario. -/
def term3w : Term := ⟨.linear, 0, [1], [0], [], true, []⟩

unseal Rat.add Rat.mul Rat.sub Rat.inv in
/-- Witness for C3 at the spec's scenario: feature range `[0, 10]`,
`extrapolation = 0.1`, `num = 5` gives the grid `[-1, 2, 5, 8, 11]`. -/
theorem claim3_witness :
    (∃ g, generateXGrid gamC term3w [[0], [10]] (1 / 10) 5
        = .ok (some (.single g)) ∧
      g.length = 5 ∧
      g.getD 0 [] = [gridLow [[0], [10]] term3w.feature (1 / 10)] ∧
      (∀ i, i < 5 → ∃ v, g.getD i [] = [v] ∧
        gridLow [[0], [10]] term3w.feature (1 / 10) ≤ v ∧
        v ≤ gridHigh [[0], [10]] term3w.feature (1 / 10)) ∧
      (∀ i, i + 1 < 5 → ∃ u v, g.getD i [] = [u] ∧ g.getD (i + 1) [] = [v] ∧
        v - u = (gridHigh [[0], [10]] term3w.feature (1 / 10)
          - gridLow [[0], [10]] term3w.feature (1 / 10)) / ((5 : ℚ) - 1))) ∧
    generateXGrid gamC term3w [[0], [10]] (1 / 10) 5
      = .ok (some (.single [[-1], [2], [5], [8], [11]])) :=
  ⟨claim3_linear_spline_grid gamC term3w [[0], [10]] (1 / 10) 5 (Or.inl rfl)
      (by decide) (by decide) (by decide) (by decide) (by decide),
    by decide⟩

/-- The cartesian product has as many rows as the product of the axis
lengths. -/
theorem cartesianProd_length {α : Type} (ls : List (List α)) :
    (cartesianProd ls).length = (ls.map List.length).prod := by
  induction ls with
  | nil => rfl
  | cons a rest ih =>
    simp only [cartesianProd, List.length_flatten, List.map_map]
    rw [List.map_congr_left (g := fun _ => (rest.map List.length).prod)
      (fun v _ => by simp [Function.comp_def, List.length_map, ih])]
    rw [List.map_const', List.sum_replicate, smul_eq_mul, List.map_cons,
      List.prod_cons]

/-- When every axis is strictly increasing, the cartesian-product rows are
strictly increasing in lexicographic order (earlier axes more significant,
i.e. the last axis varies fastest). -/
theorem cartesianProd_pairwise_lexLt (ls : List (List ℚ))
    (h : ∀ ax ∈ ls, ax.Pairwise (· < ·)) :
    (cartesianProd ls).Pairwise (fun u v => lexLt u v = true) := by
  induction ls with
  | nil => simp [cartesianProd]
  | cons a rest ih =>
    simp only [cartesianProd]
    rw [List.pairwise_flatten]
    constructor
    · intro l' hl'
      obtain ⟨v, hv, rfl⟩ := List.mem_map.1 hl'
      refine List.Pairwise.map _ ?_
        (ih (fun ax hax => h ax (List.mem_cons_of_mem a hax)))
      intro r1 r2 hr
      simp [lexLt, hr, lt_irrefl]
    · refine List.Pairwise.map _ ?_ (h a (List.mem_cons_self a rest))
      intro v1 v2 hv x hx y hy
      obtain ⟨r1, hr1, rfl⟩ := List.mem_map.1 hx
      obtain ⟨r2, hr2, rfl⟩ := List.mem_map.1 hy
      simp [lexLt, hv]

/-- The meshgrid returns one array per axis. -/
theorem meshgridIJ_length (axes : List (List ℚ)) :
    (meshgridIJ axes).length = axes.length := by
  simp [meshgridIJ]

/-- With `k` axes of length `num` each, every meshgrid array has shape
`(num, ..., num)` (`k` axes) and `num ^ k` entries. -/
theorem meshgridIJ_shape_data (axes : List (List ℚ)) (num : Nat)
    (hax : ∀ ax ∈ axes, ax.length = num) :
    ∀ nd ∈ meshgridIJ axes, nd.shape = List.replicate axes.length num ∧
      nd.data.length = num ^ axes.length := by
  intro nd hnd
  simp only [meshgridIJ] at hnd
  obtain ⟨m, hm, rfl⟩ := List.mem_map.1 hnd
  constructor
  · refine List.eq_replicate.2 ⟨by rw [List.length_map], ?_⟩
    intro x hx
    obtain ⟨ax, haxm, rfl⟩ := List.mem_map.1 hx
    exact hax ax haxm
  · rw [List.length_map, cartesianProd_length, List.map_map]
    rw [List.map_congr_left (g := fun _ => num)
      (fun ax haxm => by simp [Function.comp_def, List.length_range, hax ax haxm])]
    rw [List.map_const', List.prod_replicate]

/-- `exceptMap` succeeds with the pointwise results when no element raises. -/
theorem exceptMap_ok {E α β : Type} (f : α → Except E β) (g : α → β)
    (l : List α) (h : ∀ x ∈ l, f x = .ok (g x)) :
    exceptMap f l = .ok (l.map g) := by
  induction l with
  | nil => rfl
  | cons a l ih =>
    simp only [exceptMap]
    rw [h a (List.mem_cons_self a l),
      ih (fun x hx => h x (List.mem_cons_of_mem a hx))]
    rfl

/-- `.ravel()` of a one-column grid: flattening the one-element rows recovers
the axis values. -/
theorem flatten_map_singleton {α : Type} (l : List α) :
    (l.map (fun v => [v])).flatten = l := by
  induction l with
  | nil => rfl
  | cons x xs ih => simp [ih]

/-- Claim C7: for a fitted Tensor term with `k` single-feature sub-terms,
`generate_X_grid` returns two artifacts derived from the same per-axis value
sequences: the cartesian product of the axes — `num ^ k` rows, strictly
lexicographically ordered (last axis fastest) whenever the axes are strictly
increasing — and an "ij"-indexed meshgrid of `k` arrays, each with `k` axes
of length `num`. -/
theorem claim7_tensor_grid (gam : GAMModel) (term : Term) (X : Mat) (e : ℚ)
    (num : Nat) (hk : term.kind = .tensor) (hg : gam.fitted = true) (ht : term.fitted = true)
    (hsubs : ∀ s ∈ term.subterms, s.fitted = true ∧
      (s.kind = .linear ∨ s.kind = .spline) ∧ getColumn X s.feature ≠ [])
    (hnum : 1 ≤ num) :
    ∃ axes, generateXGrid gam term X e num
        = .ok (some (.tensor (cartesianProd axes) (meshgridIJ axes))) ∧
      axes.length = term.subterms.length ∧
      (∀ ax ∈ axes, ax.length = num) ∧
      (cartesianProd axes).length = num ^ term.subterms.length ∧
      (meshgridIJ axes).length = term.subterms.length ∧
      (∀ nd ∈ meshgridIJ axes,
        nd.shape = List.replicate term.subterms.length num ∧
        nd.data.length = num ^ term.subterms.length) ∧
      ((∀ ax ∈ axes, ax.Pairwise (· < ·)) →
        (cartesianProd axes).Pairwise (fun u v => lexLt u v = true)) := by
  refine ⟨term.subterms.map (fun s =>
    linspace (gridLow X s.feature e) (gridHigh X s.feature e) num),
    ?_, ?_, ?_, ?_, ?_, ?_, ?_⟩
  · simp only [generateXGrid]
    rw [if_neg (by simp [hg]), if_neg (by simp [ht]), hk]
    rw [exceptMap_ok _
      (fun s => linspace (gridLow X s.feature e) (gridHigh X s.feature e) num)
      term.subterms (fun s hs => ?_)]
    obtain ⟨hf, hks, hc⟩ := hsubs s hs
    simp only [generateXGridSub]
    rw [if_neg (by simp [hg]), if_neg (by simp [hf])]
    rcases hks with h | h <;> rw [h] <;> rw [if_neg hc] <;>
      simp [Except.map, flatten_map_singleton, gridLow, gridHigh]
  · rw [List.length_map]
  · intro ax hax
    obtain ⟨s, hs, rfl⟩ := List.mem_map.1 hax
    exact linspace_length _ _ _
  · rw [cartesianProd_length, List.map_map]
    rw [List.map_congr_left (g := fun _ => num)
      (fun s hs => by simp [Function.comp_def, linspace_length])]
    rw [List.map_const', List.prod_replicate]
  · rw [meshgridIJ_length, List.length_map]
  · intro nd hnd
    have h := meshgridIJ_shape_data _ num (fun ax hax => by
      obtain ⟨s, hs, rfl⟩ := List.mem_map.1 hax
      exact linspace_length _ _ _) nd hnd
    rwa [List.length_map] at h
  · intro hsorted
    exact cartesianProd_pairwise_lexLt _ hsorted

unseal Rat.add Rat.mul Rat.sub Rat.inv in
/-- Witness for C7: a Tensor of two splines on features `0`, `1` with
`num = 2` and no extrapolation gives the `2 ^ 2`-row cartesian grid (last
axis fastest) and two meshgrid arrays of shape `(2, 2)`. -/
theorem claim7_witness :
    (∃ axes, generateXGrid gamC termTenC [[0, 5], [10, 6]] 0 2
        = .ok (some (.tensor (cartesianProd axes) (meshgridIJ axes))) ∧
      axes.length = termTenC.subterms.length ∧
      (∀ ax ∈ axes, ax.length = 2) ∧
      (cartesianProd axes).length = 2 ^ termTenC.subterms.length ∧
      (meshgridIJ axes).length = termTenC.subterms.length ∧
      (∀ nd ∈ meshgridIJ axes,
        nd.shape = List.replicate termTenC.subterms.length 2 ∧
        nd.data.length = 2 ^ termTenC.subterms.length) ∧
      ((∀ ax ∈ axes, ax.Pairwise (· < ·)) →
        (cartesianProd axes).Pairwise (fun u v => lexLt u v = true))) ∧
    generateXGrid gamC termTenC [[0, 5], [10, 6]] 0 2
      = .ok (some (.tensor [[0, 5], [0, 6], [10, 5], [10, 6]]
          [⟨[2, 2], [0, 0, 10, 10]⟩, ⟨[2, 2], [5, 6, 5, 6]⟩])) :=
  ⟨claim7_tensor_grid gamC termTenC [[0, 5], [10, 6]] 0 2 (by decide)
      (by decide) (by decide) (by decide) (by decide),
    by decide⟩
